import Mathlib

/-!
# Verification of the `jba/cli` declarative command-line framework

This file gives a shallow embedding, in Lean 4, of the core of the
`jba/cli` Go package: the annotation (struct-tag) mini-language, the
value-parser factory, the command-tree registration engine, the
positional-argument binding algorithm (`bindFormals`) and the recursive
command-resolution / dispatch protocol (`Command.Run`, `mainWithArgs`).

Each definition is translated from the Go source (the current revision of
`execution.go`, `registration.go`, `parsers.go`).  Machine integers are
modelled as `Int`/`Nat`; Go's `error` results become `Except`/`Option`;
reflective field writes become explicit lists of (field-name, value)
pairs.  The external `flag` facility is kept abstract, as in the source's
own interface: dispatch is parametrised by a function that consumes the
flag prefix of an argument vector and either fails (help request or
malformed flag) or returns the remaining arguments.

Scalar Go kinds modelled for value coercion: string, bool, signed and
unsigned 64-bit integers, and slices thereof.  The `time.Duration` and
floating-point scalar kinds of the source are outside the modelled
universe; no verified property depends on them.
-/

namespace Cli

/-- The result of Go's `%q` verb on a string that needs no escape
sequences (every token appearing in the verified properties is of that
form): the string wrapped in double quotes. -/
def goQuote (s : String) : String := "\"" ++ s ++ "\""

/-- An error of the external collaborators that `errors.Is(err, flag.ErrHelp)`
can distinguish: either the distinguished help-request value `flag.ErrHelp`,
or an ordinary error carrying a message. -/
inductive CoreErr where
  | help : CoreErr
  | msg (s : String) : CoreErr
deriving DecidableEq, Repr

/-- An error escaping `Command.Run`, as far as the callers
(`errors.Is` / `errors.As` in `mainWithArgs` and the deferred
usage-error attachment in `Run`) can observe it:
either a `*UsageError` — carrying the name of the attached command node,
or none when `uerr.cmd == nil` — wrapping an underlying error, or a bare
non-usage error. -/
inductive RunErr where
  | usage (cmd : Option String) (err : CoreErr) : RunErr
  | base (err : CoreErr) : RunErr
deriving DecidableEq, Repr

/-- The deferred block of `Command.Run`: a `*UsageError` with `cmd == nil`
gets the current command attached; every other error is left unchanged. -/
def attachCmd (n : String) : RunErr → RunErr
  | .usage none e => .usage (some n) e
  | e => e

/-- `attachCmd` lifted to the `error`-or-`nil` result of `Run`'s body. -/
def attachO (n : String) : Option RunErr → Option RunErr
  | none => none
  | some e => some (attachCmd n e)

/-- A coerced argument value (Go: the `interface{}` produced by a
`parseFunc`). -/
inductive GoVal where
  | vstr (s : String) : GoVal
  | vbool (b : Bool) : GoVal
  | vint (i : Int) : GoVal
  | vuint (n : Nat) : GoVal
  | vslice (elems : List GoVal) : GoVal
deriving Repr

/-- Go `parseFunc`: convert and/or validate one string. -/
def ParseFunc := String → Except String GoVal

/-- One positional parameter (Go struct `formal`).  `min` is `-1` for an
ordinary formal and the non-negative rest minimum for the trailing
slice-typed formal; `opt` marks the formal (and, by the binding
algorithm, everything after it) optional. -/
structure Formal where
  name : String
  min : Int
  opt : Bool
  parser : ParseFunc

/-- The inner loop of `bindFormals` over a rest ("slice") formal:
`for j := i; j < len(args); j++` applying the element parser, failing on
the first element error with the formal's name prefixed. -/
def parseRest (fname : String) (p : ParseFunc) : List String → Except RunErr (List GoVal)
  | [] => .ok []
  | s :: ss =>
    match p s with
    | .error e => .error (.base (.msg (fname ++ ": " ++ e)))
    | .ok v =>
      match parseRest fname p ss with
      | .error e => .error e
      | .ok vs => .ok (v :: vs)

/-- The loop body of `(c *Command).bindFormals`.  `i` is the loop index
over the formals, `a` the cursor into `args`, exactly as in the source
(where they remain equal; the source indexes `args[a]` and compares
`i >= len(args)`).  On success the accumulated field writes are returned
in order: the Go code performs them by reflection as it goes. -/
def bindGo (cname : String) (args : List String) :
    List Formal → Nat → Nat → Except RunErr (List (String × GoVal))
  | [], _, a =>
    if a < args.length then
      .error (.usage (some cname) (.msg "too many arguments"))
    else
      .ok []
  | f :: _fs, i, a =>
    if 0 ≤ f.min then
      -- "Rest" arg; it was checked at registration to be the last formal,
      -- and the source returns from inside the loop here.
      let nArgsLeft : Int := (args.length : Int) - (i : Int)
      if nArgsLeft < f.min then
        .error (.usage (some cname) (.msg (f.name ++ ": need at least " ++
          toString f.min ++ " " ++
          (if f.min ≠ 1 then "arguments" else "argument") ++ ", got " ++
          toString nArgsLeft)))
      else
        match parseRest f.name f.parser (args.drop i) with
        | .error e => .error e
        | .ok vs => .ok [(f.name, .vslice vs)]
    else if args.length ≤ i then
      if f.opt then
        -- This and all following args are optional, so binding stops.
        .ok []
      else
        .error (.usage (some cname) (.msg "too few arguments"))
    else
      match args[a]? with
      | none => .error (.base (.msg "index out of range")) -- unreachable: a = i < len args
      | some s =>
        match f.parser s with
        | .error pe => .error (.base (.msg (f.name ++ ": " ++ pe)))
        | .ok v =>
          match bindGo cname args _fs (i + 1) (a + 1) with
          | .error e => .error e
          | .ok ws => .ok ((f.name, v) :: ws)

/-- `(c *Command).bindFormals(formals, args)` from `execution.go`,
with the receiver represented by its name (used only inside the
`*UsageError` values it creates). -/
def bindFormals (cname : String) (formals : List Formal) (args : List String) :
    Except RunErr (List (String × GoVal)) :=
  bindGo cname args formals 0 0

/-- The identity string parser (the coercion the source builds for a
plain `string`-typed field). -/
def idParser : ParseFunc := fun s => .ok (.vstr s)

/-- A required string formal, an optional string formal and a rest formal
with minimum 1, as in the spec's `[required, optional, rest(min=1)]`
example (and the source's "opt rest" test). -/
def exReq : Formal := ⟨"required", -1, false, idParser⟩

def exOpt : Formal := ⟨"optional", -1, true, idParser⟩

def exRest : Formal := ⟨"rest", 1, false, idParser⟩

def exFormals : List Formal := [exReq, exOpt, exRest]

/-- The byte classes Go's `strings.TrimSpace` removes on ASCII input
(all strings in the verified properties are ASCII). -/
def isSpaceChar (c : Char) : Bool := c == ' ' || c == '\t' || c == '\n' || c == '\r'

/-- Trim leading and trailing whitespace from a character list. -/
def trimChars (cs : List Char) : List Char :=
  ((cs.dropWhile isSpaceChar).reverse.dropWhile isSpaceChar).reverse

/-- Go `strings.TrimSpace`. -/
def goTrim (s : String) : String := (trimChars s.data).asString

/-- Split a character list on a separator character; the list of parts
(`strings.Split` semantics for a one-character separator: the empty
input yields one empty part). -/
def splitOnChar (sep : Char) : List Char → List (List Char)
  | [] => [[]]
  | c :: cs =>
    if c = sep then
      [] :: splitOnChar sep cs
    else
      match splitOnChar sep cs with
      | [] => [[c]] -- unreachable: splitOnChar never returns []
      | p :: ps => (c :: p) :: ps

/-- Go `strings.Split(s, sep)` for a one-character separator. -/
def goSplit (s : String) (sep : Char) : List String :=
  (splitOnChar sep s.data).map List.asString

/-- Go map lookup `m[k]` on the annotation option map, `ok` variant. -/
def lookupTag (m : List (String × String)) (k : String) : Option String :=
  m.lookup k

/-- Go map lookup `m[k]` returning the zero value `""` when absent. -/
def lookupTagD (m : List (String × String)) (k : String) : String :=
  (m.lookup k).getD ""

/-- `prepareOneof` from `registration.go`: absent `oneof` key yields no
restriction; a value that trims to empty is a build-time error; otherwise
the value is split on `|` and each choice trimmed. -/
def prepareOneof (m : List (String × String)) : Except String (Option (List String)) :=
  match lookupTag m "oneof" with
  | none => .ok none
  | some oneof =>
    if goTrim oneof = "" then
      .error "oneof value cannot be empty"
    else
      .ok (some ((goSplit oneof '|').map goTrim))

/-- `checkOneof` from `registration.go`: `nil` when the string equals one
of the choices, else an error enumerating the choices in order. -/
def checkOneof (s : String) (choices : List String) : Option String :=
  if choices.contains s then
    none
  else
    some ("must be one of: " ++ String.intercalate ", " choices)

/-- `parserForOneof` from `parsers.go`: succeed with the input itself
exactly when `checkOneof` accepts it. -/
def parserForOneof (choices : List String) : ParseFunc := fun s =>
  match checkOneof s choices with
  | some e => .error e
  | none => .ok (.vstr s)

/-- The character class `[A-Za-z]` of `keyRegexp`. -/
def isLetterAZ (c : Char) : Bool :=
  ('A' ≤ c && c ≤ 'Z') || ('a' ≤ c && c ≤ 'z')

/-- The character class `[A-Za-z0-9]` of `keyRegexp`. -/
def isAlnumAZ (c : Char) : Bool :=
  isLetterAZ c || ('0' ≤ c && c ≤ '9')

/-- `keyRegexp.FindStringIndex(tag)` followed by the split the source
performs on a match: the anchored regular expression
`^[A-Za-z][A-Za-z0-9]+=` matches iff the tag starts with a letter,
then one or more alphanumerics, then `=`; on a match, return the key
(the text before `=`) and the text after `=`. -/
def keyMatchL : List Char → Option (List Char × List Char)
  | [] => none
  | c :: cs =>
    if isLetterAZ c then
      let run := cs.takeWhile isAlnumAZ
      if run.isEmpty then
        none
      else
        match cs.dropWhile isAlnumAZ with
        | '=' :: rest => some (c :: run, rest)
        | _ => none
    else
      none

/-- `stringsCut(tag, ",")` at the character level: the text before the
first comma, and the text after it when a comma is present. -/
def cutCommaL : List Char → List Char × Option (List Char)
  | [] => ([], none)
  | c :: cs =>
    if c = ',' then
      ([], some cs)
    else
      (c :: (cutCommaL cs).1, (cutCommaL cs).2)

/-- Go map assignment `m[k] = v` on the association-list model of the
option map: replace the binding if the key is present, else append. -/
def mapSet (m : List (String × String)) (k v : String) : List (String × String) :=
  match m with
  | [] => [(k, v)]
  | (k', v') :: rest => if k' = k then (k, v) :: rest else (k', v') :: mapSet rest k v

/-- The loop of `tagToMap`, with a fuel argument so that the definition
is structural; `tagLoopF_congr` shows any fuel above the tag length
computes the same map, and `tagLoop` instantiates the fuel canonically. -/
def tagLoopF : Nat → List (String × String) → List Char → List (String × String)
  | 0, m, _ => m
  | _ + 1, m, [] => m
  | fuel + 1, m, tag =>
    match keyMatchL tag with
    | none => mapSet m "doc" tag.asString
    | some (key, rest) =>
      match cutCommaL rest with
      | (before, none) => mapSet m key.asString (trimChars before).asString
      | (before, some after) =>
        tagLoopF fuel (mapSet m key.asString (trimChars before).asString) (trimChars after)

/-- The `for len(tag) > 0` loop of `tagToMap` from `registration.go`,
on an already-trimmed tag. -/
def tagLoop (m : List (String × String)) (tag : List Char) : List (String × String) :=
  tagLoopF (tag.length + 1) m tag

/-- `tagToMap` from `registration.go`. -/
def tagToMap (s : String) : List (String × String) :=
  tagLoop [] (trimChars s.data)

/-- Key of a `key=value` entry per the source's `keyRegexp`: a letter
followed by one or more alphanumerics (hence at least two characters). -/
def isGoKeyL : List Char → Bool
  | [] => false
  | c :: cs => isLetterAZ c && !cs.isEmpty && cs.all isAlnumAZ

/-! ### Value coercion engine (`parsers.go`) -/

/-- The scalar/sequence kinds of the modelled universe of Go field
types.  `gother` stands for any kind the coercion engine rejects with
"cannot parse string into <type>", carrying the printed type name.
The `time.Duration` and floating-point kinds of the source are outside
this universe; no verified property depends on them. -/
inductive GoKind where
  | gstring : GoKind
  | gbool : GoKind
  | gint : GoKind
  | guint : GoKind
  | gslice (elem : GoKind) : GoKind
  | gother (tname : String) : GoKind
deriving DecidableEq, Repr

/-- The printed form of a kind, as it appears in error messages. -/
def kindName : GoKind → String
  | .gstring => "string"
  | .gbool => "bool"
  | .gint => "int64"
  | .guint => "uint64"
  | .gslice e => "[]" ++ kindName e
  | .gother t => t

/-- Decimal digit accumulation for the `strconv` number parsers. -/
def decDigitsAux : Nat → List Char → Option Nat
  | acc, [] => some acc
  | acc, c :: cs =>
    if c.isDigit then decDigitsAux (acc * 10 + (c.toNat - '0'.toNat)) cs else none

/-- The value of a non-empty all-digit string, else `none`. -/
def decDigits? : List Char → Option Nat
  | [] => none
  | c :: cs => decDigitsAux 0 (c :: cs)

/-- Shared core of `strconv.ParseInt(s, 10, 64)` and `strconv.Atoi`:
optional sign, decimal digits, 64-bit signed range check; `fname` is the
function name used in the error text. -/
def goParseIntCore (fname : String) (s : String) : Except String Int :=
  let err := fun (m : String) => fname ++ ": parsing " ++ goQuote s ++ ": " ++ m
  let signed := fun (neg : Bool) (ds : List Char) =>
    match decDigits? ds with
    | none => .error (err "invalid syntax")
    | some n =>
      if neg then
        if n ≤ 2 ^ 63 then .ok (-(n : Int)) else .error (err "value out of range")
      else
        if n ≤ 2 ^ 63 - 1 then .ok (n : Int) else .error (err "value out of range")
  match s.data with
  | '+' :: ds => signed false ds
  | '-' :: ds => signed true ds
  | ds => signed false ds

/-- `strconv.ParseInt(s, 10, 64)`. -/
def goParseInt (s : String) : Except String Int :=
  goParseIntCore "strconv.ParseInt" s

/-- `strconv.Atoi(s)` (64-bit platform). -/
def goAtoi (s : String) : Except String Int :=
  goParseIntCore "strconv.Atoi" s

/-- `strconv.ParseUint(s, 10, 64)`: decimal digits only, no sign. -/
def goParseUint (s : String) : Except String Nat :=
  let err := fun (m : String) => "strconv.ParseUint: parsing " ++ goQuote s ++ ": " ++ m
  match decDigits? s.data with
  | none => .error (err "invalid syntax")
  | some n => if n ≤ 2 ^ 64 - 1 then .ok n else .error (err "value out of range")

/-- `strconv.ParseBool`. -/
def goParseBool (s : String) : Except String Bool :=
  if s = "1" ∨ s = "t" ∨ s = "T" ∨ s = "true" ∨ s = "TRUE" ∨ s = "True" then
    .ok true
  else if s = "0" ∨ s = "f" ∨ s = "F" ∨ s = "false" ∨ s = "FALSE" ∨ s = "False" then
    .ok false
  else
    .error ("strconv.ParseBool: parsing " ++ goQuote s ++ ": invalid syntax")

/-- `parserForType` from `parsers.go` (restricted to the modelled
kinds): a oneof restriction demands a string kind; otherwise dispatch on
the scalar kind, with slices and unknown kinds rejected by the default
case. -/
def parserForType (t : GoKind) (choices : Option (List String)) : Except String ParseFunc :=
  match choices with
  | some cs =>
    match t with
    | .gstring => .ok (parserForOneof cs)
    | _ => .error ("oneof must be string type, not " ++ kindName t)
  | none =>
    match t with
    | .gstring => .ok (fun s => .ok (.vstr s))
    | .gbool => .ok (fun s => (goParseBool s).map .vbool)
    | .gint => .ok (fun s => (goParseInt s).map .vint)
    | .guint => .ok (fun s => (goParseUint s).map .vuint)
    | t => .error ("cannot parse string into " ++ kindName t)

/-- The element loop of `parserForSlice`: trim each part, apply the
element parser, fail on the first element failure with the offending
(trimmed) substring prefixed. -/
def parseParts (elp : ParseFunc) : List String → Except String (List GoVal)
  | [] => .ok []
  | p :: ps =>
    match elp p with
    | .error e => .error (goQuote p ++ ": " ++ e)
    | .ok v =>
      match parseParts elp ps with
      | .error e => .error e
      | .ok vs => .ok (v :: vs)

/-- `parserForSlice` from `parsers.go`: split the input on commas, trim
and parse each part with the element parser. -/
def parserForSlice (elem : GoKind) (choices : Option (List String)) :
    Except String ParseFunc :=
  match parserForType elem choices with
  | .error e => .error e
  | .ok elp =>
    .ok (fun s =>
      match parseParts elp ((goSplit s ',').map goTrim) with
      | .error e => .error e
      | .ok vs => .ok (.vslice vs))

/-- `buildParser` from `parsers.go`: a slice type is comma-split when
used as a flag and element-parsed when used as a positional. -/
def buildParser (t : GoKind) (choices : Option (List String)) (isFlag : Bool) :
    Except String ParseFunc :=
  match t with
  | .gslice el => if isFlag then parserForSlice el choices else parserForType el choices
  | t => parserForType t choices

/-! ### Registration engine (`registration.go`) -/

/-- One exported-or-not struct field as the registration walk sees it:
its name, its `cli` tag (after the `Tag.Get("cli")` / whole-tag fallback
of `processFields`), and its kind. -/
structure Field where
  name : String
  exported : Bool
  tag : String
  kind : GoKind

/-- The observable behavior of a `Command.Struct` value: whether it
implements `Runnable` (and the error its `Run` returns), whether it
implements the `Before` hook (and the error that returns), and its
fields. -/
structure StructInfo where
  runRes : Option (Option RunErr)
  beforeRes : Option (Option RunErr)
  fields : List Field

/-- The `Command` node: name, optional behavior struct, positional
formals, registered flag names (the contents of its flag set), and
sub-commands.  The parent back-reference of the source is only used for
usage rendering and is not modelled. -/
inductive Command where
  | mk (name : String) (str : Option StructInfo) (formals : List Formal)
      (flagNames : List String) (subs : List Command) : Command

def Command.name : Command → String
  | .mk n _ _ _ _ => n

def Command.str : Command → Option StructInfo
  | .mk _ st _ _ _ => st

def Command.formals : Command → List Formal
  | .mk _ _ fs _ _ => fs

def Command.flagNames : Command → List String
  | .mk _ _ _ fl _ => fl

def Command.subs : Command → List Command
  | .mk _ _ _ _ subs => subs

/-- `sub.Struct.(Runnable)` succeeds. -/
def isRunnable (c : Command) : Bool :=
  match c.str with
  | some si => si.runRes.isSome
  | none => false

/-- `findSub` from `registration.go`: first child with the given name. -/
def findSub (subs : List Command) (nm : String) : Option Command :=
  subs.find? (fun s => s.name == nm)

/-- The option-map keys the registration engine accepts (`validKeys`). -/
def validKeys : List String := ["flag", "name", "min", "oneof", "doc", "opt"]

/-- What `parseTag` contributes to the command under construction. -/
inductive TagAction where
  | skip : TagAction
  | addFlag (fname : String) : TagAction
  | addFormal (f : Formal) : TagAction

/-- `strings.ToLower` for the ASCII names of the modelled universe. -/
def lowerStr (s : String) : String := (s.data.map Char.toLower).asString

/-- `strings.ToUpper` for the ASCII names of the modelled universe. -/
def upperStr (s : String) : String := (s.data.map Char.toUpper).asString

/-- `(c *Command).parseTag` from `registration.go`, as the action it
performs on the flag set / formals list, or the build error it reports.
The source iterates the tag-map keys in Go's randomized map order when
looking for an invalid key; the model uses the map's entry order (which
offending key is named can differ, never whether an error occurs). -/
def parseTag (fld : Field) : Except String TagAction :=
  if fld.tag ≠ "" ∧ fld.exported = false then
    .error "cli tag on unexported field"
  else if fld.exported = false then
    .ok .skip
  else
    let m := tagToMap fld.tag
    match (m.map Prod.fst).find? (fun k => k == "" || !validKeys.contains k) with
    | some bad => if bad = "" then .error "empty key" else .error ("invalid key: " ++ goQuote bad)
    | none =>
      let isFlag := (lookupTag m "flag").isSome
      if isFlag ∧ lookupTagD m "name" ≠ "" then
        .error "either 'flag' or 'name', but not both"
      else if (lookupTag m "opt").isSome ∧ isFlag then
        .error "either 'flag' or 'opt', but not both"
      else
        match prepareOneof m with
        | .error e => .error e
        | .ok choices =>
          match buildParser fld.kind choices isFlag with
          | .error e => .error e
          | .ok parser =>
            if isFlag then
              -- Bool flags, oneof flags and value-callback flags all
              -- register one flag under the derived name.
              let fname0 := lookupTagD m "flag"
              let fname1 := if fname0 = "" then lowerStr fld.name else fname0
              let fname2 :=
                if fname1.data.head? = some '-' then fname1.data.tail.asString else fname1
              .ok (.addFlag fname2)
            else
              let nm := if lookupTagD m "name" = "" then upperStr fld.name else lookupTagD m "name"
              if lookupTagD m "opt" ≠ "" then
                .error "\"opt\" should not have a value"
              else
                match fld.kind with
                | .gslice _ =>
                  match lookupTag m "min" with
                  | none => .ok (.addFormal ⟨nm, 0, (lookupTag m "opt").isSome, parser⟩)
                  | some minTag =>
                    match goAtoi minTag with
                    | .error e => .error ("min: " ++ e)
                    | .ok mn =>
                      if mn < 0 then
                        .error "min cannot be negative"
                      else
                        .ok (.addFormal ⟨nm, mn, (lookupTag m "opt").isSome, parser⟩)
                | _ =>
                  if (lookupTag m "min").isSome then
                    .error "min is only for slice args"
                  else
                    .ok (.addFormal ⟨nm, -1, (lookupTag m "opt").isSome, parser⟩)

/-- The field loop of `processFields`, threading the formals list and
flag-name list being built. -/
def processFieldsGo (cname : String) :
    List Field → List Formal → List String → Except String (List Formal × List String)
  | [], fs, fl => .ok (fs, fl)
  | fld :: rest, fs, fl =>
    match parseTag fld with
    | .error e =>
      .error ("command " ++ goQuote cname ++ ", field " ++ goQuote fld.name ++ ": " ++ e)
    | .ok .skip => processFieldsGo cname rest fs fl
    | .ok (.addFlag n) => processFieldsGo cname rest fs (fl ++ [n])
    | .ok (.addFormal f) => processFieldsGo cname rest (fs ++ [f]) fl

/-- The after-walk check of `processFields`: a slice-typed formal that is
not the last formal is a build error. -/
def checkRestLast : List Formal → Except String Unit
  | [] => .ok ()
  | [_] => .ok ()
  | f :: fs =>
    if 0 ≤ f.min then
      .error (goQuote f.name ++ " is a slice but not the last arg")
    else
      checkRestLast fs

/-- `(c *Command).processFields` from `registration.go` (the
pointer-to-struct reflection check always holds in the modelled
universe). -/
def processFields (c : Command) : Except String Command :=
  match c.str with
  | none => .ok c
  | some si =>
    match processFieldsGo c.name si.fields c.formals c.flagNames with
    | .error e => .error e
    | .ok (fs, fl) =>
      match checkRestLast fs with
      | .error e => .error e
      | .ok _ => .ok (.mk c.name c.str fs fl c.subs)

/-- `initFlags` from `registration.go`: the sub-command gets a fresh,
empty flag set. -/
def initFlags (c : Command) : Command :=
  .mk c.name c.str c.formals [] c.subs

/-- `(c *Command).register(sub)` from `registration.go`, returning the
parent with the sub-command appended on success. -/
def register (c sub : Command) : Except String Command :=
  if sub.name = "" then
    .error ("sub-command of " ++ c.name ++ " has no name")
  else
    let sub1 := initFlags sub
    if (findSub c.subs sub.name).isSome then
      .error ("duplicate sub-command: " ++ goQuote sub.name)
    else
      match processFields sub1 with
      | .error e => .error e
      | .ok sub2 =>
        if !isRunnable sub2 && !c.formals.isEmpty then
          .error ("sub-command " ++ sub.name ++ " of " ++ c.name ++
            " has positional arguments but is not runnable")
        else
          .ok (.mk c.name c.str c.formals c.flagNames (c.subs ++ [sub2]))

/-! ### Dispatch engine (`execution.go`) -/

/-- The interface of the external flag facility: per command (identified
by name), consume the flag prefix of an argument vector and either fail
— with the distinguished help value or a flag error — or return the
remaining non-flag arguments (`flags.Args()`). -/
def FlagFac := String → List String → Except CoreErr (List String)

/-- `(c *Command).validate`, modelled from the prior revision in
`src/cli.go` (consistent with the spec's step 1): a node that is not
runnable must have sub-commands. -/
def validate (c : Command) : Option String :=
  if !isRunnable c && c.subs.isEmpty then
    some (c.name ++ " is not a Command and has no sub-commands")
  else
    none

/-- The `Before` hook step of `Run`: the error of `Struct.Before` when
the struct implements the hook and it fails. -/
def beforeStep (c : Command) : Option RunErr :=
  match c.str with
  | some si =>
    match si.beforeRes with
    | some (some e) => some e
    | _ => none
  | none => none

/-- The tail of `Run` after resolution: bind the positionals against the
remaining arguments, then invoke the behavior's `Run`; a group that is
not a command reports "missing sub-command". -/
def runFinish (c : Command) (rest : List String) : Option RunErr :=
  match bindFormals c.name c.formals rest with
  | .error e => some e
  | .ok _ =>
    match c.str with
    | some si =>
      match si.runRes with
      | some r => r
      | none => some (.usage (some c.name) (.msg "missing sub-command"))
    | none => some (.usage (some c.name) (.msg "missing sub-command"))

mutual

/-- `(c *Command).Run(ctx, args)` from `execution.go`: validate, parse
flags, run the `Before` hook, prefer a sub-command for the first
remaining argument, report an unknown command when the node has children
but no formals, otherwise bind positionals and invoke the behavior; the
deferred block attaches the node to an unattached usage error. -/
def Run (fp : FlagFac) : Command → List String → Option RunErr
  | .mk nm st fs fl subs, args =>
    attachO nm
      (match validate (.mk nm st fs fl subs) with
       | some e => some (.base (.msg e))
       | none =>
         match fp nm args with
         | .error fe => some (.usage (some nm) fe)
         | .ok rest =>
           match beforeStep (.mk nm st fs fl subs) with
           | some e => some e
           | none =>
             match rest with
             | tok :: rest' =>
               (match runDelegate fp subs tok rest' with
                | some res => res
                | none =>
                  if !subs.isEmpty && fs.isEmpty then
                    some (.usage (some nm) (.msg ("unknown command " ++ goQuote tok)))
                  else
                    runFinish (.mk nm st fs fl subs) rest)
             | [] => runFinish (.mk nm st fs fl subs) rest)

/-- The `findSub`-then-delegate step of `Run`: scan the children for the
token; on the first name match, delegate with the rest of the
arguments. -/
def runDelegate (fp : FlagFac) : List Command → String → List String → Option (Option RunErr)
  | [], _, _ => none
  | s :: ss, tok, rest =>
    if s.name == tok then some (Run fp s rest) else runDelegate fp ss tok rest

end

mutual

/-- `validateAll` (recursively validate the tree), modelled from the
prior revision in `src/execution.go`. -/
def validateAll : Command → Option String
  | .mk nm st fs fl subs =>
    match validate (.mk nm st fs fl subs) with
    | some e => some e
    | none => validateAllList subs

def validateAllList : List Command → Option String
  | [] => none
  | c :: cs =>
    match validateAll c with
    | some e => some e
    | none => validateAllList cs

end

/-- `errors.Is(err, flag.ErrHelp)` on the modelled error shapes: the
bare help value, or a usage error unwrapping to it. -/
def errorsIsHelp : RunErr → Bool
  | .base .help => true
  | .usage _ .help => true
  | _ => false

/-- `errors.As(err, &uerr)` for `*UsageError` on the modelled error
shapes. -/
def errorsAsUsage : RunErr → Bool
  | .usage _ _ => true
  | _ => false

/-- `(c *Command).mainWithArgs` from `execution.go`; `none` models the
panic on an invalid tree. -/
def mainWithArgs (fp : FlagFac) (c : Command) (args : List String) : Option Nat :=
  match validateAll c with
  | some _ => none
  | none =>
    match Run fp c args with
    | none => some 0
    | some e =>
      if errorsIsHelp e then some 0
      else if errorsAsUsage e then some 2
      else some 1

/-- The exit-code classification of an invocation result, for stating
the exit-code convention. -/
def exitCode (r : Option RunErr) : Nat :=
  match r with
  | none => 0
  | some e => if errorsIsHelp e then 0 else if errorsAsUsage e then 2 else 1

/-! ### Concrete instances used by counterexamples and witnesses -/

/-- A flag facility with no registered flags: every argument vector is
returned unconsumed. -/
def fp0 : FlagFac := fun _ as => .ok as

/-- The coercion the source builds for an `int`-typed field. -/
def intParser : ParseFunc := fun s => (goParseInt s).map .vint

/-- A behavior struct implementing `Runnable` with a successful `Run`,
no `Before` hook and no fields. -/
def okStruct : StructInfo := ⟨some none, none, []⟩

/-- A runnable parent command that declares one required positional. -/
def exPar : Command := .mk "par" (some okStruct) [exReq] [] []

/-- A runnable sub-command with no fields. -/
def exSub : Command := .mk "sub" (some okStruct) [] [] []

/-- What registering `exSub` under `exPar` produces: a node with both a
non-empty positionals list and a child. -/
def exParReg : Command := .mk "par" (some okStruct) [exReq] [] [exSub]

/-- A runnable leaf used as a delegation target. -/
def exChild : Command := .mk "child" (some okStruct) [] [] []

/-- A parent that declares a required positional and also has the child
`exChild`: a sub-command token must still win over the positional. -/
def exDelPar : Command := .mk "p" (some okStruct) [exReq] [] [exChild]

/-- A pure group node (no behavior) with one child and no formals. -/
def exGroup : Command := .mk "grp" none [] [] [exChild]

/-- A runnable leaf whose behavior returns an unattached usage error. -/
def exErrLeaf : Command :=
  .mk "leaf" (some ⟨some (some (.usage none (.msg "boom"))), none, []⟩) [] [] []

/-- A runnable command with one required `int` positional. -/
def exComCmd : Command := .mk "com" (some okStruct) [⟨"N", -1, false, intParser⟩] [] []

/-- A top-level group with the single sub-command `exComCmd`. -/
def exTopCmd : Command := .mk "top" none [] [] [exComCmd]

/-- A struct field whose tag carries both `flag` and `opt`. -/
def exConflictFld : Field := ⟨"F", true, "flag=f,opt=", .gstring⟩

/-- A command whose struct has the conflicting field. -/
def exConflictCmd : Command := .mk "cc" (some ⟨some none, none, [exConflictFld]⟩) [] [] []

/-! ## Theorems -/

/-- C1 counterexample: for the formals `[required, optional, rest(min=1)]`
the argument vector `["spec"]` does **not** produce an error containing
"at least 1": binding stops successfully at the unsatisfied optional
formal, writing only `required="spec"`, exactly as the source's own
"opt rest" test expects. -/
theorem bindFormals_opt_rest_one_arg_succeeds :
    bindFormals "c" exFormals ["spec"] = .ok [("required", .vstr "spec")] := rfl

/-- C1 (amended): for `[required, optional, rest(min=1)]`:
`["spec"]` binds successfully with `required="spec"` and the optional and
rest fields left at their zero values; `["spec","term"]` errors with
"need at least 1 argument, got 0" (which contains "at least 1");
`["spec","term","p1"]` binds `required="spec"`, `optional="term"`,
`rest=["p1"]`; `["spec","term","p1","p2"]` binds `rest=["p1","p2"]`. -/
theorem bindFormals_req_opt_rest_example :
    bindFormals "c" exFormals ["spec"] = .ok [("required", .vstr "spec")] ∧
    bindFormals "c" exFormals ["spec", "term"] =
      .error (.usage (some "c") (.msg "rest: need at least 1 argument, got 0")) ∧
    bindFormals "c" exFormals ["spec", "term", "p1"] =
      .ok [("required", .vstr "spec"), ("optional", .vstr "term"),
        ("rest", .vslice [.vstr "p1"])] ∧
    bindFormals "c" exFormals ["spec", "term", "p1", "p2"] =
      .ok [("required", .vstr "spec"), ("optional", .vstr "term"),
        ("rest", .vslice [.vstr "p1", .vstr "p2"])] :=
  ⟨rfl, rfl, rfl, rfl⟩

/-- C4: for any two required formals (not rest, not optional) whose
parsers accept the available tokens, binding `["a"]` fails with
"too few arguments" and binding `["a","b","c"]` fails with
"too many arguments". -/
theorem bindFormals_two_required_arity (n : String) (f1 f2 : Formal) (v1 v2 : GoVal)
    (hm1 : f1.min < 0) (ho1 : f1.opt = false)
    (hm2 : f2.min < 0) (ho2 : f2.opt = false)
    (hp1 : f1.parser "a" = .ok v1) (hp2 : f2.parser "b" = .ok v2) :
    bindFormals n [f1, f2] ["a"] = .error (.usage (some n) (.msg "too few arguments")) ∧
    bindFormals n [f1, f2] ["a", "b", "c"] =
      .error (.usage (some n) (.msg "too many arguments")) := by
  have h1 : ¬ (0 : Int) ≤ f1.min := by omega
  have h2 : ¬ (0 : Int) ≤ f2.min := by omega
  have _ := ho1
  constructor <;> simp [bindFormals, bindGo, h1, h2, ho2, hp1, hp2]

/-- Witness for C4 at two required identity-parser formals. -/
theorem bindFormals_two_required_arity_witness :
    bindFormals "w" [exReq, exReq] ["a"] =
      .error (.usage (some "w") (.msg "too few arguments")) ∧
    bindFormals "w" [exReq, exReq] ["a", "b", "c"] =
      .error (.usage (some "w") (.msg "too many arguments")) :=
  bindFormals_two_required_arity "w" exReq exReq (.vstr "a") (.vstr "b")
    (by decide) rfl (by decide) rfl rfl rfl

/-- C5: for any choice list produced by `prepareOneof` (the declared
`oneof` value split on `|` with each choice trimmed), the oneof parser
succeeds exactly on inputs equal to one of the choices, returning that
input/choice, and on any other input fails with an error listing all the
choices in declaration order. -/
theorem parserForOneof_spec (m : List (String × String)) (choices : List String)
    (input : String) (h : prepareOneof m = .ok (some choices)) :
    (input ∈ choices → parserForOneof choices input = .ok (.vstr input)) ∧
    (input ∉ choices →
      parserForOneof choices input =
        .error ("must be one of: " ++ String.intercalate ", " choices)) := by
  have _ : prepareOneof m = .ok (some choices) := h
  constructor <;> intro hin <;> simp [parserForOneof, checkOneof, hin]

/-- Witness for C5: choices declared as `"a | b|c"`, accepted input `"b"`,
rejected input `"d"`. -/
theorem parserForOneof_spec_witness :
    parserForOneof ["a", "b", "c"] "b" = .ok (.vstr "b") ∧
    parserForOneof ["a", "b", "c"] "d" = .error "must be one of: a, b, c" := by
  have h : prepareOneof [("oneof", "a | b|c")] = .ok (some ["a", "b", "c"]) := rfl
  refine ⟨(parserForOneof_spec _ _ "b" h).1 (by decide),
    by simpa using (parserForOneof_spec _ _ "d" h).2 (by decide)⟩

/-! ### The tag grammar (`tagToMap`) -/

theorem trimChars_length_le (cs : List Char) : (trimChars cs).length ≤ cs.length := by
  have h1 := (List.dropWhile_sublist (l := cs) isSpaceChar).length_le
  have h2 := (List.dropWhile_sublist (l := (cs.dropWhile isSpaceChar).reverse)
    isSpaceChar).length_le
  simp only [trimChars, List.length_reverse] at *
  omega

theorem cutCommaL_some_length : ∀ {cs b a : List Char},
    cutCommaL cs = (b, some a) → a.length < cs.length := by
  intro cs
  induction cs with
  | nil => intro b a h; simp [cutCommaL] at h
  | cons c cs ih =>
    intro b a h
    simp only [cutCommaL] at h
    split at h
    · cases h
      simp
    · have h2 : (cutCommaL cs).2 = some a := congrArg Prod.snd h
      rcases he : cutCommaL cs with ⟨b2, a2⟩
      rw [he] at h2
      cases h2
      exact Nat.lt_trans (ih he) (by simp)

theorem keyMatchL_some_length : ∀ {tag key rest : List Char},
    keyMatchL tag = some (key, rest) → rest.length < tag.length := by
  intro tag key rest h
  match tag with
  | [] => simp [keyMatchL] at h
  | c :: cs =>
    simp only [keyMatchL] at h
    split at h
    · split at h
      · simp at h
      · split at h
        · rename_i heq
          cases h
          have hle := (List.dropWhile_sublist (l := cs) isAlnumAZ).length_le
          rw [heq] at hle
          simp only [List.length_cons] at *
          omega
        · simp at h
    · simp at h

theorem cutCommaL_no_comma : ∀ {v : List Char}, ',' ∉ v → cutCommaL v = (v, none) := by
  intro v
  induction v with
  | nil => intro _; rfl
  | cons c cs ih =>
    intro h
    have hc : ¬ c = ',' := fun hh => h (hh ▸ List.mem_cons_self c cs)
    have hcs : ',' ∉ cs := fun hh => h (List.mem_cons_of_mem c hh)
    simp [cutCommaL, hc, ih hcs]

theorem cutCommaL_append {v : List Char} (r : List Char) (h : ',' ∉ v) :
    cutCommaL (v ++ ',' :: r) = (v, some r) := by
  induction v with
  | nil => simp [cutCommaL]
  | cons c cs ih =>
    have hc : ¬ c = ',' := fun hh => h (hh ▸ List.mem_cons_self c cs)
    have hcs : ',' ∉ cs := fun hh => h (List.mem_cons_of_mem c hh)
    simp [cutCommaL, hc, ih hcs]

theorem keyMatchL_key_append {k : List Char} (t : List Char) (hk : isGoKeyL k = true) :
    keyMatchL (k ++ '=' :: t) = some (k, t) := by
  match k with
  | [] => simp [isGoKeyL] at hk
  | c :: cs =>
    simp only [isGoKeyL, Bool.and_eq_true, Bool.not_eq_true', List.isEmpty_eq_false] at hk
    obtain ⟨⟨hc, hne⟩, hall⟩ := hk
    have hallm : ∀ a ∈ cs, isAlnumAZ a := fun a ha => List.all_eq_true.mp hall a ha
    have heq : isAlnumAZ '=' = false := by decide
    simp only [List.cons_append, keyMatchL, hc, if_true]
    rw [List.takeWhile_append_of_pos hallm, List.dropWhile_append_of_pos hallm]
    simp [List.takeWhile_cons, List.dropWhile_cons, heq, List.isEmpty_eq_false, hne]

theorem tagLoopF_congr : ∀ {f1 f2 : Nat} {m : List (String × String)} {tag : List Char},
    tag.length < f1 → tag.length < f2 → tagLoopF f1 m tag = tagLoopF f2 m tag := by
  intro f1
  induction f1 with
  | zero => intro f2 m tag h1 h2; omega
  | succ n ih =>
    intro f2 m tag h1 h2
    match f2, tag with
    | 0, _ => omega
    | f2' + 1, [] => rfl
    | f2' + 1, c :: cs =>
      simp only [tagLoopF]
      cases hkm : keyMatchL (c :: cs) with
      | none => rfl
      | some kr =>
        rcases kr with ⟨key, rest⟩
        simp only []
        rcases hcc : cutCommaL rest with ⟨before, aopt⟩
        cases aopt with
        | none => rfl
        | some after =>
          have hr1 : rest.length < (c :: cs).length := keyMatchL_some_length hkm
          have ha : after.length < rest.length := cutCommaL_some_length hcc
          have ht := trimChars_length_le after
          simp only [List.length_cons] at *
          exact ih (by omega) (by omega)

/-- One unfolding of the `tagToMap` loop on a non-empty (already
trimmed) tag. -/
theorem tagLoop_unfold (m : List (String × String)) (tag : List Char) (hne : tag ≠ []) :
    tagLoop m tag =
      match keyMatchL tag with
      | none => mapSet m "doc" tag.asString
      | some (key, rest) =>
        match cutCommaL rest with
        | (_before, none) => mapSet m key.asString (trimChars (cutCommaL rest).1).asString
        | (_before, some after) =>
          tagLoop (mapSet m key.asString (trimChars (cutCommaL rest).1).asString)
            (trimChars after) := by
  match tag with
  | [] => exact absurd rfl hne
  | c :: cs =>
    show tagLoopF (cs.length + 1 + 1) m (c :: cs) = _
    simp only [tagLoopF]
    cases hkm : keyMatchL (c :: cs) with
    | none => rfl
    | some kr =>
      rcases kr with ⟨key, rest⟩
      rcases hcc : cutCommaL rest with ⟨before, aopt⟩
      cases aopt with
      | none => simp [hcc]
      | some after =>
        simp only [hcc]
        have hr1 : rest.length < (c :: cs).length := keyMatchL_some_length hkm
        have ha : after.length < rest.length := cutCommaL_some_length hcc
        have ht := trimChars_length_le after
        simp only [List.length_cons] at *
        exact tagLoopF_congr (by omega) (by omega)

/-- C8 counterexample: the entry `a=b` has a one-letter prefix before
`=`; the source's `keyRegexp` (`^[A-Za-z][A-Za-z0-9]+=`) requires at
least two characters before `=`, so the whole entry is treated as the
free-text `doc` value, not as setting a key `a`. -/
theorem tagToMap_one_letter_key_is_doc :
    tagToMap "a=b" = [("doc", "a=b")] := rfl

/-- C8 (amended): the annotation parser processes comma-separated entries
left to right.  An entry whose prefix is a letter followed by **one or
more further alphanumerics** (so at least two characters) immediately
followed by `=` sets that key to the text up to the next top-level comma,
with keys and values trimmed of surrounding whitespace; an entry lacking
such a `key=` prefix becomes the `doc` value consisting of the entire
remainder of the tag, ending parsing; an empty tag yields an empty map. -/
theorem tagToMap_grammar :
    tagToMap "" = [] ∧
    (∀ (m : List (String × String)) (s : List Char), s ≠ [] → keyMatchL s = none →
      tagLoop m s = mapSet m "doc" s.asString) ∧
    (∀ (m : List (String × String)) (k v r : List Char), isGoKeyL k = true → ',' ∉ v →
      tagLoop m (k ++ '=' :: v ++ ',' :: r) =
        tagLoop (mapSet m k.asString (trimChars v).asString) (trimChars r)) ∧
    (∀ (m : List (String × String)) (k v : List Char), isGoKeyL k = true → ',' ∉ v →
      tagLoop m (k ++ '=' :: v) = mapSet m k.asString (trimChars v).asString) := by
  refine ⟨rfl, ?_, ?_, ?_⟩
  · intro m s hne hkm
    rw [tagLoop_unfold m s hne, hkm]
  · intro m k v r hk hv
    have hne : k ++ '=' :: (v ++ ',' :: r) ≠ [] := by cases k <;> simp
    rw [show k ++ '=' :: v ++ ',' :: r = k ++ '=' :: (v ++ ',' :: r) by simp,
      tagLoop_unfold _ _ hne, keyMatchL_key_append _ hk]
    simp [cutCommaL_append r hv]
  · intro m k v hk hv
    have hne : k ++ '=' :: v ≠ [] := by cases k <;> simp
    rw [tagLoop_unfold _ _ hne, keyMatchL_key_append _ hk]
    simp [cutCommaL_no_comma hv]

/-- Witness for C8 at the key `ab`, raw value `" c "` and remainder
`"x"`, plus the source test's own tag vector evaluated in full. -/
theorem tagToMap_grammar_witness :
    tagLoop [] ("ab".data ++ '=' :: " c ".data ++ ',' :: "x".data) =
      tagLoop (mapSet [] "ab" "c") "x".data ∧
    tagToMap " flag=fl,\t name=n, some doc   " =
      [("flag", "fl"), ("name", "n"), ("doc", "some doc")] := by
  have h := tagToMap_grammar.2.2.1 [] "ab".data " c ".data "x".data (by decide) (by decide)
  exact ⟨by simpa using h, rfl⟩

/-! ### Registration (`register`, `parseTag`, `processFields`) -/

theorem parseTag_conflict (fld : Field)
    (hexp : fld.exported = true)
    (hflag : (lookupTag (tagToMap fld.tag) "flag").isSome = true)
    (hconf : (lookupTag (tagToMap fld.tag) "opt").isSome = true ∨
      lookupTagD (tagToMap fld.tag) "name" ≠ "") :
    ∃ e, parseTag fld = .error e := by
  cases hbad : List.find? (fun k => k == "" || !validKeys.contains k)
      (List.map Prod.fst (tagToMap fld.tag)) with
  | some bad =>
    by_cases hb : bad = ""
    · exact ⟨"empty key", by simp only [parseTag, hexp, hbad, hb]; simp⟩
    · exact ⟨"invalid key: " ++ goQuote bad, by simp only [parseTag, hexp, hbad]; simp [hb]⟩
  | none =>
    by_cases hn : lookupTagD (tagToMap fld.tag) "name" = ""
    · have hopt : (lookupTag (tagToMap fld.tag) "opt").isSome = true := by
        rcases hconf with h | h
        · exact h
        · exact absurd hn h
      exact ⟨"either 'flag' or 'opt', but not both",
        by simp only [parseTag, hexp, hbad]; simp [hflag, hn, hopt]⟩
    · exact ⟨"either 'flag' or 'name', but not both",
        by simp only [parseTag, hexp, hbad]; simp [hflag, hn]⟩

theorem processFieldsGo_error_of_mem (cname : String) :
    ∀ (fields : List Field) (fs : List Formal) (fl : List String) (fld : Field),
      fld ∈ fields → (∃ e, parseTag fld = .error e) →
      ∃ e2, processFieldsGo cname fields fs fl = .error e2 := by
  intro fields
  induction fields with
  | nil => intro fs fl fld hmem _; exact absurd hmem (List.not_mem_nil fld)
  | cons f0 rest ih =>
    rintro fs fl fld hmem ⟨e, he⟩
    cases hpt : parseTag f0 with
    | error e0 =>
      exact ⟨"command " ++ goQuote cname ++ ", field " ++ goQuote f0.name ++ ": " ++ e0,
        by simp [processFieldsGo, hpt]⟩
    | ok act =>
      have hmem' : fld ∈ rest := by
        rcases List.mem_cons.mp hmem with rfl | hm
        · rw [hpt] at he; cases he
        · exact hm
      cases act with
      | skip => simpa [processFieldsGo, hpt] using ih fs fl fld hmem' ⟨e, he⟩
      | addFlag n => simpa [processFieldsGo, hpt] using ih fs (fl ++ [n]) fld hmem' ⟨e, he⟩
      | addFormal f => simpa [processFieldsGo, hpt] using ih (fs ++ [f]) fl fld hmem' ⟨e, he⟩

/-- C10: a struct field whose parsed tag has both a `flag` key and an
`opt` key — or a `flag` key together with a non-empty `name` value —
makes `parseTag` fail, so no flag and no positional Formal is created
for it, and `processFields` (hence registration of the containing
command) fails with a build-time error. -/
theorem processFields_flag_conflict_fails (c : Command) (si : StructInfo) (fld : Field)
    (hstr : c.str = some si) (hmem : fld ∈ si.fields)
    (hexp : fld.exported = true)
    (hflag : (lookupTag (tagToMap fld.tag) "flag").isSome = true)
    (hconf : (lookupTag (tagToMap fld.tag) "opt").isSome = true ∨
      lookupTagD (tagToMap fld.tag) "name" ≠ "") :
    (∃ e, parseTag fld = .error e) ∧ (∃ e, processFields c = .error e) := by
  have hpt := parseTag_conflict fld hexp hflag hconf
  refine ⟨hpt, ?_⟩
  obtain ⟨e2, he2⟩ :=
    processFieldsGo_error_of_mem c.name si.fields c.formals c.flagNames fld hmem hpt
  exact ⟨e2, by simp [processFields, hstr, he2]⟩

/-- Witness for C10: the field `F` with tag `flag=f,opt=`. -/
theorem processFields_flag_conflict_fails_witness :
    (∃ e, parseTag exConflictFld = .error e) ∧
    (∃ e, processFields exConflictCmd = .error e) :=
  processFields_flag_conflict_fails exConflictCmd ⟨some none, none, [exConflictFld]⟩
    exConflictFld rfl (by simp) rfl (by decide) (.inl (by decide))

/-- C2 counterexample: registering the *runnable* sub-command `exSub`
under `exPar` — whose positionals list is non-empty — succeeds, and the
resulting node has both a non-empty positionals list and a child, so the
structural XOR is not enforced at registration time. -/
theorem register_mixed_node_created :
    register exPar exSub = .ok exParReg ∧
    exParReg.formals.isEmpty = false ∧ exParReg.subs.isEmpty = false :=
  ⟨rfl, rfl, rfl⟩

/-- C2 (amended): registering a sub-command under a node whose
positionals list is non-empty fails exactly when the sub-command's
struct does not implement `Runnable`; a runnable sub-command is
accepted and appended, so a node may hold both positional parameters
and children. -/
theorem register_under_positionals_iff_not_runnable (c sub sub2 : Command)
    (hname : sub.name ≠ "")
    (hdup : findSub c.subs sub.name = none)
    (hpf : processFields (initFlags sub) = .ok sub2)
    (hformals : c.formals.isEmpty = false) :
    (isRunnable sub2 = false →
      register c sub = .error ("sub-command " ++ sub.name ++ " of " ++ c.name ++
        " has positional arguments but is not runnable")) ∧
    (isRunnable sub2 = true →
      register c sub = .ok (.mk c.name c.str c.formals c.flagNames (c.subs ++ [sub2]))) := by
  constructor <;> intro hr <;> simp [register, hname, hdup, hpf, hformals, hr]

/-- Witness for C2 at the runnable sub-command `exSub` under `exPar`. -/
theorem register_under_positionals_iff_not_runnable_witness :
    register exPar exSub =
      .ok (.mk "par" (some okStruct) [exReq] [] ([exSub] : List Command)) :=
  (register_under_positionals_iff_not_runnable exPar exSub exSub
    (by decide) rfl rfl rfl).2 rfl

/-! ### Dispatch (`Run`, `mainWithArgs`) -/

theorem attachCmd_idem (n m : String) (e : RunErr) :
    attachCmd n (attachCmd m e) = attachCmd m e := by
  cases e with
  | usage cmd err => cases cmd <;> rfl
  | base err => rfl

theorem attachO_idem (n m : String) (r : Option RunErr) :
    attachO n (attachO m r) = attachO m r := by
  cases r with
  | none => rfl
  | some e => simp [attachO, attachCmd_idem]

theorem attachO_Run (n : String) (fp : FlagFac) (c : Command) (args : List String) :
    attachO n (Run fp c args) = Run fp c args := by
  cases c with
  | mk nm st fs fl subs =>
    rw [Run]
    exact attachO_idem n nm _

theorem runDelegate_eq_findSub (fp : FlagFac) (subs : List Command) (tok : String)
    (rest : List String) :
    runDelegate fp subs tok rest = (findSub subs tok).map (fun s => Run fp s rest) := by
  induction subs with
  | nil => rfl
  | cons s ss ih =>
    by_cases h : s.name == tok
    · simp [runDelegate, findSub, List.find?, h]
    · simp only [runDelegate, findSub, List.find?] at *
      rw [if_neg (by simpa using h)]
      simp only [h]
      exact ih

theorem validate_of_subs_ne (nm : String) (st : Option StructInfo) (fs : List Formal)
    (fl : List String) (s0 : Command) (subs : List Command) :
    validate (.mk nm st fs fl (s0 :: subs)) = none := by
  simp [validate, Command.subs, isRunnable]

/-- C3: when flag parsing leaves a first argument that names a child,
`Run` delegates to that child with the rest of the arguments — the
token is never bound as one of the node's own positionals, even when
the node declares positionals that could accept it. -/
theorem Run_delegates_to_subcommand (fp : FlagFac) (c subc : Command)
    (args rest' : List String) (tok : String)
    (hfp : fp c.name args = .ok (tok :: rest'))
    (hbefore : beforeStep c = none)
    (hfind : findSub c.subs tok = some subc) :
    Run fp c args = Run fp subc rest' := by
  cases c with
  | mk nm st fs fl subs =>
    simp only [Command.name] at hfp
    simp only [Command.subs] at hfind
    have hsubs : subs ≠ [] := by
      intro h
      rw [h] at hfind
      simp [findSub] at hfind
    have hval : validate (.mk nm st fs fl subs) = none := by
      match subs, hsubs with
      | s0 :: ss, _ => exact validate_of_subs_ne nm st fs fl s0 ss
    simp only [Run, hval, hfp, hbefore, runDelegate_eq_findSub, hfind, Option.map_some]
    exact attachO_Run nm fp subc rest'

/-- Witness for C3: `exDelPar` declares a required positional that could
accept the token `"child"`, yet delegates to the child of that name. -/
theorem Run_delegates_to_subcommand_witness :
    Run fp0 exDelPar ["child"] = Run fp0 exChild [] :=
  Run_delegates_to_subcommand fp0 exDelPar exChild ["child"] [] "child" rfl rfl rfl

/-- C6: on a node with children and no positionals, a first remaining
argument naming no child makes `Run` return a Usage error whose message
is `unknown command "<token>"` — not an arity error. -/
theorem Run_unknown_command_error (fp : FlagFac) (c : Command)
    (args rest' : List String) (tok : String)
    (hsubs : c.subs.isEmpty = false)
    (hformals : c.formals.isEmpty = true)
    (hfp : fp c.name args = .ok (tok :: rest'))
    (hbefore : beforeStep c = none)
    (hfind : findSub c.subs tok = none) :
    Run fp c args =
      some (.usage (some c.name) (.msg ("unknown command " ++ goQuote tok))) := by
  cases c with
  | mk nm st fs fl subs =>
    simp only [Command.name] at hfp
    simp only [Command.subs] at hfind hsubs
    simp only [Command.formals] at hformals
    have hval : validate (.mk nm st fs fl subs) = none := by
      have hne : subs ≠ [] := by
        intro h
        rw [h] at hsubs
        simp at hsubs
      match subs, hne with
      | s0 :: ss, _ => exact validate_of_subs_ne nm st fs fl s0 ss
    simp only [Run, hval, hfp, hbefore, runDelegate_eq_findSub, hfind, Option.map_none,
      hsubs, hformals]
    rfl

/-- Witness for C6 at the group `exGroup` and the unknown token
`"nope"`. -/
theorem Run_unknown_command_error_witness :
    Run fp0 exGroup ["nope"] =
      some (.usage (some "grp") (.msg "unknown command \"nope\"")) :=
  Run_unknown_command_error fp0 exGroup ["nope"] [] "nope" rfl rfl rfl rfl rfl

/-- C9: when dispatch reaches the behavior and its `Run` returns an
error, that error is passed through unchanged except that a usage error
with no node attached gets the current node attached (`attachCmd`); a
usage error already carrying a node keeps it, and non-usage errors are
untouched. -/
theorem Run_behavior_error_passthrough (fp : FlagFac) (c : Command)
    (args rest : List String) (e : RunErr) (ws : List (String × GoVal)) (si : StructInfo)
    (hstr : c.str = some si)
    (hrun : si.runRes = some (some e))
    (hfp : fp c.name args = .ok rest)
    (hbefore : beforeStep c = none)
    (hres : ∀ tok rest', rest = tok :: rest' →
      findSub c.subs tok = none ∧ (c.subs.isEmpty = true ∨ c.formals.isEmpty = false))
    (hbind : bindFormals c.name c.formals rest = .ok ws) :
    Run fp c args = some (attachCmd c.name e) := by
  cases c with
  | mk nm st fs fl subs =>
    simp only [Command.name, Command.formals] at hfp hbind
    simp only [Command.str] at hstr
    simp only [Command.subs, Command.formals] at hres
    have hval : validate (.mk nm st fs fl subs) = none := by
      simp [validate, isRunnable, Command.str, hstr, hrun]
    have hfin : runFinish (.mk nm st fs fl subs) rest = some e := by
      simp [runFinish, Command.name, Command.formals, Command.str, hbind, hstr, hrun]
    match rest, hres with
    | [], _ =>
      simp only [Run, hval, hfp, hbefore, hfin]
      rfl
    | tok :: rest', hres =>
      obtain ⟨hfind, hcase⟩ := hres tok rest' rfl
      have hcond : (!subs.isEmpty && fs.isEmpty) = false := by
        rcases hcase with h | h
        · simp [h]
        · simp [h]
      simp only [Run, hval, hfp, hbefore, runDelegate_eq_findSub, hfind, Option.map_none,
        hcond, hfin]
      rfl

/-- Witness for C9: a leaf whose behavior returns an unattached usage
error; the leaf's name is attached. -/
theorem Run_behavior_error_passthrough_witness :
    Run fp0 exErrLeaf [] = some (.usage (some "leaf") (.msg "boom")) :=
  Run_behavior_error_passthrough fp0 exErrLeaf [] [] (.usage none (.msg "boom")) []
    ⟨some (some (.usage none (.msg "boom"))), none, []⟩
    rfl rfl rfl rfl (fun _ _ h => nomatch h) rfl

/-- C7 counterexample: a malformed *positional* argument value — `"abc"`
for the `int` positional of `com` — produces a plain coercion error, not
a `*UsageError`, so the exit code is 1, where the claim's "malformed
flags or arguments" demands 2. -/
theorem mainWithArgs_coercion_failure_exit_one :
    mainWithArgs fp0 exTopCmd ["com", "abc"] = some 1 := rfl

/-- C7 (amended): on a tree that validates, the exit code is determined
by the kind of error `Run` returns: 0 on success or help (including a
usage error wrapping the help value), 2 when the error is a
`*UsageError` (flag-parse failures, arity errors, unknown command,
missing sub-command), and 1 on any other error — including behavior
errors and positional coercion failures. -/
theorem mainWithArgs_exit_code_classes (fp : FlagFac) (c : Command) (args : List String)
    (h : validateAll c = none) :
    mainWithArgs fp c args = some (exitCode (Run fp c args)) := by
  cases hr : Run fp c args with
  | none => simp [mainWithArgs, h, hr, exitCode]
  | some e =>
    simp only [mainWithArgs, exitCode, h, hr]
    split_ifs <;> rfl

/-- Witness for C7 at the concrete tree `exTopCmd`. -/
theorem mainWithArgs_exit_code_classes_witness :
    mainWithArgs fp0 exTopCmd ["com", "abc"] =
      some (exitCode (Run fp0 exTopCmd ["com", "abc"])) :=
  mainWithArgs_exit_code_classes fp0 exTopCmd ["com", "abc"] rfl

end Cli


